import Mathlib

/-!
Verification of the event-service repository (Go) against its specification.

This file shallowly embeds the parts of the code base that the checked
properties depend on:

* `internal/opensearch/indexing/retry.go` — `RetryLogic.ExecuteWithRetry`
  and `calculateBackoffDelay`;
* `internal/opensearch/indexing` bulk operations — `checkBulkResponse`,
  `BulkIndex` chunking, `BulkIndexEvents` validation;
* `internal/opensearch/models` — `EventDocument`, `Validate`,
  `ValidateForIndexing`, `FromDBEvent`;
* `internal/dataloader/loader.go` — `InitializeOpenSearchData`;
* the consistency manager — `CheckConsistency`, `compareEvent`,
  `getCachedResult`, `RepairInconsistencies`.

Modelling conventions: Go `error` values are `Option Err` (`none` = `nil`);
durations are rational numbers of nanoseconds; `time.Time` instants are
natural-number nanosecond timestamps (`0` models the zero instant, so
`IsZero` becomes `= 0`); `float32`/`float64` fields that the code only
compares and scales are modelled as `ℚ`; contexts are reduced to the one
observable the code consults, a cancellation flag.  Functions that perform
I/O receive the outcome of that I/O as an explicit oracle argument and
additionally return the list of write operations they attempted, so that
frame properties ("no writes") are statable.
-/

namespace EventService

/-- Go `error` payloads; `Option Err` plays the role of a nullable `error`. -/
abbrev Err := String

/-! ## Retry logic (`internal/opensearch/indexing/retry.go`) -/

/-- Embeds the `RetryLogic` struct.  Delays are rational nanoseconds. -/
structure RetryLogic where
  maxRetries : Nat
  baseDelay : ℚ
  maxDelay : ℚ
  backoffFactor : ℚ
deriving DecidableEq

/-- Embeds `NewRetryLogic`: 3 retries, base delay `time.Second`
(10^9 ns), max delay `time.Minute` (6·10^10 ns), factor 2.0. -/
def NewRetryLogic : RetryLogic :=
  { maxRetries := 3
    baseDelay := 1000000000
    maxDelay := 60000000000
    backoffFactor := 2 }

/-- Possible results of `ExecuteWithRetry`:  `ok` is the `return nil`
inside the success branch, `ctxErr` is `return ctx.Err()` from the backoff
`select`, and `exhausted lastErr` is the final wrapped
`fmt.Errorf("operation failed after %d attempts, last error: %w", …)`
(a non-nil error even when `lastErr` is `nil`). -/
inductive RetryOutcome where
  | ok
  | ctxErr
  | exhausted (lastErr : Option Err)
deriving DecidableEq

/-- Embeds the `for attempt := 1; attempt <= r.maxRetries; attempt++` loop
of `ExecuteWithRetry`.  `remaining` counts the loop iterations still
allowed (structurally decreasing); `ctxDone` is whether the outer context
is cancelled; `op attempt` is the error returned by the operation on that
attempt.  The second component counts how many times the operation was
invoked.  Note the faithful quirk of the source: `return nil` sits inside
`if attempt > 1`, so a first-attempt success falls through to the retry
path. -/
def RetryLogic.retryAux (r : RetryLogic) (ctxDone : Bool) (op : Nat → Option Err) :
    Nat → Nat → Option Err → RetryOutcome × Nat
  | 0, _, lastErr => (RetryOutcome.exhausted lastErr, 0)
  | remaining + 1, attempt, _ =>
    let err := op attempt
    if err = none ∧ 1 < attempt then
      (RetryOutcome.ok, 1)
    else if attempt < r.maxRetries then
      if ctxDone then
        (RetryOutcome.ctxErr, 1)
      else
        let rest := r.retryAux ctxDone op remaining (attempt + 1) err
        (rest.1, rest.2 + 1)
    else
      let rest := r.retryAux ctxDone op remaining (attempt + 1) err
      (rest.1, rest.2 + 1)

/-- Embeds `ExecuteWithRetry(ctx, operation)`.  Returns the outcome and
the number of times `operation` was invoked. -/
def RetryLogic.executeWithRetry (r : RetryLogic) (ctxDone : Bool)
    (op : Nat → Option Err) : RetryOutcome × Nat :=
  r.retryAux ctxDone op r.maxRetries 1 none

/-- Embeds `calculateBackoffDelay(attempt)` over `ℚ`.  `modNow` stands for
the value of `math.Mod(float64(time.Now().UnixNano()), 1.0)`, a number in
`[0, 1)`; the final `time.Duration` truncation is not modelled. -/
def RetryLogic.calculateBackoffDelay (r : RetryLogic) (modNow : ℚ)
    (attempt : Nat) : ℚ :=
  let delay := r.baseDelay * r.backoffFactor ^ (attempt - 1)
  let jitter : ℚ := 1/4
  let jitterRange := delay * jitter
  let jitteredDelay := delay + (2 * jitterRange * modNow - jitterRange)
  if jitteredDelay > r.maxDelay then r.maxDelay else jitteredDelay

/-- C1: evaluation of `ExecuteWithRetry` at the failing input.  With the
default configuration and an operation that succeeds on its first attempt,
the call invokes the operation twice (the misplaced `return nil` inside
`if attempt > 1` skips the immediate return); with `maxRetries = 1` the
same always-succeeding operation even yields the non-nil exhaustion error.
The claim says a first-attempt success returns success immediately with no
further attempts. -/
theorem executeWithRetry_firstAttemptSuccess_bug :
    NewRetryLogic.executeWithRetry false (fun _ => none) = (RetryOutcome.ok, 2) ∧
    ({ NewRetryLogic with maxRetries := 1 } : RetryLogic).executeWithRetry false
        (fun _ => none) = (RetryOutcome.exhausted none, 1) := by
  constructor <;> rfl

/-- C2 counterexample: with the default configuration, a context cancelled
before the call and a failing operation, `ExecuteWithRetry` invokes the
operation once — not the zero attempts the claim states — because the
cancellation check only happens in the backoff `select` after an attempt. -/
theorem executeWithRetry_cancelledCtx_counterexample :
    NewRetryLogic.executeWithRetry true (fun _ => some "operation error") =
      (RetryOutcome.ctxErr, 1) ∧
    (NewRetryLogic.executeWithRetry true (fun _ => some "operation error")).2 ≠ 0 := by
  constructor <;> decide

/-- C2 amended: for every operation, if the outer context is already
cancelled before `ExecuteWithRetry` is called (and `maxRetries ≥ 2`, as in
the default configuration), the call returns the context's cancellation
error after invoking the operation exactly once; no retry beyond the first
attempt is made. -/
theorem executeWithRetry_cancelledCtx (r : RetryLogic) (op : Nat → Option Err)
    (h : 2 ≤ r.maxRetries) :
    r.executeWithRetry true op = (RetryOutcome.ctxErr, 1) := by
  unfold RetryLogic.executeWithRetry
  obtain ⟨k, hk⟩ : ∃ k, r.maxRetries = k + 1 := ⟨r.maxRetries - 1, by omega⟩
  rw [hk]
  have h1 : ¬ (op 1 = none ∧ 1 < 1) := by simp
  have h2 : 1 < r.maxRetries := by omega
  simp [RetryLogic.retryAux, h1, h2]

/-- C2 amended, witness at a concrete input. -/
theorem executeWithRetry_cancelledCtx_witness :
    2 ≤ NewRetryLogic.maxRetries ∧
    NewRetryLogic.executeWithRetry true (fun _ => some "boom") =
      (RetryOutcome.ctxErr, 1) :=
  ⟨by decide,
   executeWithRetry_cancelledCtx NewRetryLogic (fun _ => some "boom") (by decide)⟩

/-- C9: for every attempt number `n ≥ 1`, the backoff delay equals
`baseDelay * backoffFactor^(n-1)` with a jitter summand of magnitude at
most 25% of that value (the jitter source `math.Mod(now_ns, 1.0)` is the
parameter `m ∈ [0,1)`), and the resulting delay never exceeds the
configured maximum delay. -/
theorem calculateBackoffDelay_spec (r : RetryLogic) (m : ℚ) (attempt : Nat)
    (hatt : 1 ≤ attempt) (hm0 : 0 ≤ m) (hm1 : m < 1)
    (hbase : 0 ≤ r.baseDelay) (hfac : 0 ≤ r.backoffFactor) :
    r.calculateBackoffDelay m attempt ≤ r.maxDelay ∧
    ∃ j : ℚ, |j| ≤ r.baseDelay * r.backoffFactor ^ (attempt - 1) / 4 ∧
      r.calculateBackoffDelay m attempt =
        min (r.baseDelay * r.backoffFactor ^ (attempt - 1) + j) r.maxDelay := by
  have hd0 : 0 ≤ r.baseDelay * r.backoffFactor ^ (attempt - 1) := by positivity
  unfold RetryLogic.calculateBackoffDelay
  dsimp only
  set d := r.baseDelay * r.backoffFactor ^ (attempt - 1) with hd
  refine ⟨?_, (2 * m - 1) * d / 4, ?_, ?_⟩
  · split_ifs with hif
    · exact le_refl _
    · linarith
  · have h21 : |2 * m - 1| ≤ 1 := abs_le.mpr ⟨by linarith, by linarith⟩
    have habs : |(2 * m - 1) * d / 4| = |2 * m - 1| * d / 4 := by
      rw [abs_div, abs_mul, abs_of_nonneg hd0]
      norm_num
    rw [habs]
    have := mul_le_mul_of_nonneg_right h21 hd0
    linarith
  · have heq : d + (2 * (d * (1/4)) * m - d * (1/4)) = d + (2 * m - 1) * d / 4 := by
      ring
    rw [heq, min_def]
    split_ifs with h1 h2 <;> first | rfl | linarith

/-- C9 witness at the default configuration, attempt 1, jitter source 0. -/
theorem calculateBackoffDelay_spec_witness :
    (0:ℚ) ≤ NewRetryLogic.baseDelay ∧
    (NewRetryLogic.calculateBackoffDelay 0 1 ≤ NewRetryLogic.maxDelay ∧
      ∃ j : ℚ, |j| ≤ NewRetryLogic.baseDelay * NewRetryLogic.backoffFactor ^ (1 - 1) / 4 ∧
        NewRetryLogic.calculateBackoffDelay 0 1 =
          min (NewRetryLogic.baseDelay * NewRetryLogic.backoffFactor ^ (1 - 1) + j)
            NewRetryLogic.maxDelay) :=
  ⟨by norm_num [NewRetryLogic],
   calculateBackoffDelay_spec NewRetryLogic 0 1 (by norm_num) (by norm_num) (by norm_num)
     (by norm_num [NewRetryLogic]) (by norm_num [NewRetryLogic])⟩

/-! ## Bulk response checking (`checkBulkResponse` in the indexing package) -/

/-- Embeds the per-item error object of the bulk response
(`Error *struct { Type, Reason string }`). -/
structure BulkItemError where
  type : String
  reason : String
deriving DecidableEq

/-- Embeds one entry of `response.Items` (the `index` sub-object: status
and optional error). -/
structure BulkItem where
  status : Int
  error : Option BulkItemError
deriving DecidableEq

/-- Embeds the decoded bulk response: the `errors` flag plus the items. -/
structure BulkResponse where
  errors : Bool
  items : List BulkItem
deriving DecidableEq

/-- Embeds the error-collecting loop `for i, item := range response.Items`
of `checkBulkResponse`: one formatted string per item whose `error` object
is present. -/
def bulkErrorStrings : Nat → List BulkItem → List String
  | _, [] => []
  | i, it :: rest =>
    match it.error with
    | some e =>
        ("item " ++ toString i ++ ": " ++ e.type ++ " - " ++ e.reason) ::
          bulkErrorStrings (i + 1) rest
    | none => bulkErrorStrings (i + 1) rest

/-- Embeds `checkBulkResponse`: no `errors` flag means success; otherwise
an error is returned exactly when the collected per-item errors cover
every item (`len(errors) == len(response.Items)`).  The `successCount`
computed by the source only feeds a log line. -/
def checkBulkResponse (resp : BulkResponse) : Option Err :=
  if resp.errors = false then none
  else
    let errs := bulkErrorStrings 0 resp.items
    if errs.length = resp.items.length then
      some ("all bulk operations failed: " ++ String.intercalate "; " errs)
    else none

/-- The collected error strings are in bijection with the items carrying
an error object. -/
theorem bulkErrorStrings_length (l : List BulkItem) :
    ∀ i, (bulkErrorStrings i l).length = l.countP (fun it => it.error.isSome) := by
  induction l with
  | nil => intro i; simp [bulkErrorStrings]
  | cons it rest ih =>
    intro i
    cases h : it.error <;> simp [bulkErrorStrings, h, ih, List.countP_cons]

/-- C3: for every bulk chunk whose response reports per-item results
(a nonempty item list whose `errors` flag is consistent with the items),
the chunk operation returns an error if and only if every item in the
chunk failed; if at least one item succeeded no error is returned. -/
theorem checkBulkResponse_error_iff_allFailed (resp : BulkResponse)
    (hne : resp.items ≠ [])
    (hwf : resp.errors = resp.items.any fun it => it.error.isSome) :
    (checkBulkResponse resp).isSome ↔ ∀ it ∈ resp.items, it.error.isSome := by
  unfold checkBulkResponse
  rcases hb : resp.errors with _ | _
  · rw [hb] at hwf
    have hno : ∀ it ∈ resp.items, ¬ (it.error.isSome = true) := by
      intro it hit
      have := List.any_eq_false.mp hwf.symm it hit
      simpa using this
    obtain ⟨it0, hit0⟩ : ∃ it, it ∈ resp.items := by
      cases hx : resp.items with
      | nil => exact absurd hx hne
      | cons a l => exact ⟨a, hx ▸ List.mem_cons_self a l⟩
    simp only [if_pos rfl, Option.isSome_none]
    constructor
    · intro hfalse; cases hfalse
    · intro hall; exact absurd (hall it0 hit0) (hno it0 hit0)
  · simp only [hb]
    rw [if_neg (by simp), bulkErrorStrings_length]
    constructor
    · intro hsome
      by_cases hc : resp.items.countP (fun it => it.error.isSome) = resp.items.length
      · intro it hit
        have := List.countP_eq_length.mp hc it hit
        simpa using this
      · rw [if_neg hc] at hsome
        simp at hsome
    · intro hall
      have hc : resp.items.countP (fun it => it.error.isSome) = resp.items.length :=
        List.countP_eq_length.mpr (fun it hit => by simpa using hall it hit)
      rw [if_pos hc]
      simp

/-- C3 witness: a one-item chunk whose single item failed yields a chunk
error. -/
theorem checkBulkResponse_error_iff_allFailed_witness :
    (checkBulkResponse ⟨true, [⟨400, some ⟨"t", "r"⟩⟩]⟩).isSome :=
  (checkBulkResponse_error_iff_allFailed ⟨true, [⟨400, some ⟨"t", "r"⟩⟩]⟩
    (by decide) (by decide)).mpr (by decide)

/-! ## Events and documents (`internal/db/types.go`,
`internal/opensearch/models`) -/

/-- Embeds `db.Event`.  `price` (`float32`) is a rational; `createdAt` is
a nanosecond timestamp with `0` standing for the zero `time.Time`. -/
structure Event where
  id : Int
  name : String
  description : String
  categoryID : Int
  date : String
  time : String
  location : String
  price : ℚ
  image : String
  source : String
  createdAt : Nat
  updatedAt : Option Nat
deriving DecidableEq

/-- Embeds `models.EventDocument` (also standing in for the structurally
identical `elasticsearch.EventDocument` used by the consistency manager). -/
structure EventDocument where
  id : Int
  name : String
  description : String
  categoryID : Int
  categoryName : String
  date : String
  time : String
  location : String
  price : ℚ
  image : String
  source : String
  createdAt : Nat
  updatedAt : Option Nat
deriving DecidableEq

/-- Embeds `models.FromDBEvent` (non-nil case: the model carries values,
not pointers). -/
def FromDBEvent (e : Event) : EventDocument :=
  { id := e.id
    name := e.name
    description := e.description
    categoryID := e.categoryID
    categoryName := ""
    date := e.date
    time := e.time
    location := e.location
    price := e.price
    image := e.image
    source := e.source
    createdAt := e.createdAt
    updatedAt := e.updatedAt }

/-- Embeds `models.FromDBEvents` (every element is non-nil, so the
nil-skipping loop is a plain map). -/
def FromDBEvents (l : List Event) : List EventDocument := l.map FromDBEvent

/-- Embeds `EventDocument.Validate`. -/
def EventDocument.validate (d : EventDocument) : Option Err :=
  let errs : List String :=
    (if d.id ≤ 0 then ["id must be positive"] else []) ++
    (if d.name.trim = "" then ["name is required"] else []) ++
    (if d.categoryID ≤ 0 then ["category_id must be positive"] else []) ++
    (if d.price < 0 then ["price cannot be negative"] else [])
  if 0 < errs.length then
    some ("validation errors: " ++ String.intercalate ", " errs)
  else none

/-- Embeds `EventDocument.ValidateForIndexing` (`Validate` plus the
`CreatedAt.IsZero()` check). -/
def EventDocument.validateForIndexing (d : EventDocument) : Option Err :=
  match d.validate with
  | some e => some e
  | none =>
    if d.createdAt = 0 then some "created_at is required for indexing" else none

/-! ## Bulk indexing (`Manager.BulkIndexEvents`, `BulkOperations.BulkIndex`) -/

/-- Embeds the validation loop of `BulkIndexEvents`
(`for i, doc := range docs`): the first failing document aborts with an
error naming its index. -/
def validateDocs : Nat → List EventDocument → Option Err
  | _, [] => none
  | i, d :: rest =>
    match d.validateForIndexing with
    | some e => some ("validation failed for event " ++ toString i ++ ": " ++ e)
    | none => validateDocs (i + 1) rest

/-- Splits a list into consecutive chunks of at most `n` elements, as the
`for i := 0; i < len(docs); i += maxBatchSize` loops do.  `fuel` bounds
the recursion by the list length. -/
def chunksOfAux (n : Nat) : Nat → List α → List (List α)
  | 0, _ => []
  | _, [] => []
  | fuel + 1, x :: xs => (x :: xs).take n :: chunksOfAux n fuel ((x :: xs).drop n)

/-- Chunking entry point (`maxBatchSize` resp. `batchSize` is 100 in the
source). -/
def chunksOf (n : Nat) (l : List α) : List (List α) := chunksOfAux n l.length l

/-- Embeds the chunk-submitting loop of `BulkIndex`: each chunk goes
through `processBatch` (whose outcome the oracle `submit` provides); the
first failing chunk aborts the loop with a wrapped error.  The second
component lists the chunks submitted to the index. -/
def submitChunks (submit : List EventDocument → Option Err) :
    List (List EventDocument) → Option Err × List (List EventDocument)
  | [] => (none, [])
  | c :: rest =>
    match submit c with
    | some e => (some ("failed to process batch: " ++ e), [c])
    | none =>
      let r := submitChunks submit rest
      (r.1, c :: r.2)

/-- Embeds `BulkOperations.BulkIndex` (chunk size 100). -/
def bulkIndex (submit : List EventDocument → Option Err)
    (docs : List EventDocument) : Option Err × List (List EventDocument) :=
  submitChunks submit (chunksOf 100 docs)

/-- Embeds `Manager.BulkIndexEvents`: empty input short-circuits, then all
documents are validated before any bulk write, then `BulkIndex` runs. -/
def bulkIndexEvents (submit : List EventDocument → Option Err)
    (events : List Event) : Option Err × List (List EventDocument) :=
  if events.length = 0 then (none, [])
  else
    let docs := FromDBEvents events
    match validateDocs 0 docs with
    | some e => (some e, [])
    | none => bulkIndex submit docs

/-- The validation loop fails exactly when some document fails
`ValidateForIndexing`. -/
theorem validateDocs_isSome (l : List EventDocument) :
    ∀ i, (validateDocs i l).isSome ↔ ∃ d ∈ l, d.validateForIndexing.isSome := by
  induction l with
  | nil => intro i; simp [validateDocs]
  | cons d rest ih =>
    intro i
    cases h : d.validateForIndexing with
    | some e => simp [validateDocs, h]
    | none => simp [validateDocs, h, ih]

/-- C10: for every event list containing an event that fails pre-index
validation, `BulkIndexEvents` returns the validation error (the message
produced by the first failing document, which names it) and submits no
chunk at all to the index; for the empty list it returns success without
contacting the index. -/
theorem bulkIndexEvents_validation_spec (submit : List EventDocument → Option Err)
    (events : List Event)
    (h : events = [] ∨ ∃ d ∈ FromDBEvents events, d.validateForIndexing.isSome) :
    (bulkIndexEvents submit events).2 = [] ∧
    (events = [] → bulkIndexEvents submit events = (none, [])) ∧
    (events ≠ [] →
      (bulkIndexEvents submit events).1 = validateDocs 0 (FromDBEvents events) ∧
      (bulkIndexEvents submit events).1.isSome) := by
  rcases h with h | h
  · subst h
    refine ⟨rfl, fun _ => rfl, fun hne => absurd rfl hne⟩
  · have hne : events ≠ [] := by
      rintro rfl
      simp [FromDBEvents] at h
    have hlen : ¬ events.length = 0 := by
      simpa [List.length_eq_zero] using hne
    have hsome : (validateDocs 0 (FromDBEvents events)).isSome :=
      (validateDocs_isSome _ 0).mpr h
    obtain ⟨e, he⟩ := Option.isSome_iff_exists.mp hsome
    have hbe : bulkIndexEvents submit events = (some e, []) := by
      unfold bulkIndexEvents
      rw [if_neg hlen]
      simp only [he]
    exact ⟨by rw [hbe], fun h' => absurd h' hne,
      fun _ => ⟨by rw [hbe, he], by rw [hbe]; rfl⟩⟩

/-- C10 witness: a single event with a non-positive id is rejected and
nothing is submitted. -/
theorem bulkIndexEvents_validation_spec_witness :
    (bulkIndexEvents (fun _ => none)
        [⟨0, "n", "", 1, "d", "t", "l", 0, "", "s", 1, none⟩]).2 = [] ∧
    (bulkIndexEvents (fun _ => none)
        [⟨0, "n", "", 1, "d", "t", "l", 0, "", "s", 1, none⟩]).1.isSome :=
  ⟨(bulkIndexEvents_validation_spec (fun _ => none) _
      (Or.inr (by simp [FromDBEvents, FromDBEvent, EventDocument.validateForIndexing,
        EventDocument.validate]))).1,
   ((bulkIndexEvents_validation_spec (fun _ => none) _
      (Or.inr (by simp [FromDBEvents, FromDBEvent, EventDocument.validateForIndexing,
        EventDocument.validate]))).2.2 (by simp)).2⟩

/-! ## Bootstrap loader (`internal/dataloader/loader.go`) -/

/-- Embeds the chunk loop of `InitializeOpenSearchData`: chunk number `i`
is attempted through `indexBatchWithRetry`, whose outcome the oracle
`batchOk` provides; a failing chunk adds its event count to `errorCount`
and the loop continues with the next chunk.  Returns
`(successCount, errorCount, attempted chunks)`. -/
def runBatches (batchOk : Nat → Bool) :
    Nat → List (List Event) → Nat × Nat × List (List Event)
  | _, [] => (0, 0, [])
  | i, b :: rest =>
    let r := runBatches batchOk (i + 1) rest
    if batchOk i then (b.length + r.1, r.2.1, b :: r.2.2)
    else (r.1, b.length + r.2.1, b :: r.2.2)

/-- Embeds the tail of `InitializeOpenSearchData` after the skip checks:
run all chunks (size 100), then apply the final policy — an aggregate
error only when `errorCount > 0` and `successCount == 0`. -/
def runInitChunks (events : List Event) (batchOk : Nat → Bool) :
    Option Err × List (List Event) :=
  let r := runBatches batchOk 0 (chunksOf 100 events)
  if 0 < r.2.1 then
    if r.1 = 0 then (some "failed to index any events", r.2.2)
    else (none, r.2.2)
  else (none, r.2.2)

/-- Embeds `InitializeOpenSearchData`.  `getEvents` is the outcome of
`storer.GetEvents`; `searchTotal` the outcome of the zero-size probe
`SearchEvents` (its reported total); a probe error is logged and bootstrap
proceeds.  The second component lists the chunks submitted to the
index. -/
def initOpenSearchData (getEvents : Except Err (List Event))
    (searchTotal : Except Err Nat) (batchOk : Nat → Bool) :
    Option Err × List (List Event) :=
  match getEvents with
  | .error e => (some ("failed to get events from PostgreSQL: " ++ e), [])
  | .ok events =>
    if events.length = 0 then (none, [])
    else
      match searchTotal with
      | .ok total =>
        if 0 < total then (none, []) else runInitChunks events batchOk
      | .error _ => runInitChunks events batchOk

/-- Every chunk is attempted, in order, whatever `batchOk` says. -/
theorem runBatches_attempted (batchOk : Nat → Bool) :
    ∀ i cs, (runBatches batchOk i cs).2.2 = cs := by
  intro i cs
  induction cs generalizing i with
  | nil => rfl
  | cons b rest ih =>
    unfold runBatches
    split_ifs <;> simp [ih]

/-- The success count is zero exactly when every chunk failed (chunks
being nonempty). -/
theorem runBatches_success_eq_zero (batchOk : Nat → Bool) :
    ∀ i cs, (∀ b ∈ cs, b ≠ []) →
      ((runBatches batchOk i cs).1 = 0 ↔ ∀ j < cs.length, batchOk (i + j) = false) := by
  intro i cs
  induction cs generalizing i with
  | nil => intro _; simp [runBatches]
  | cons b rest ih =>
    intro hmem
    have hb : b ≠ [] := hmem b (List.mem_cons_self b rest)
    have hrest := ih (i + 1) (fun c hc => hmem c (List.mem_cons_of_mem b hc))
    unfold runBatches
    rcases hok : batchOk i with _ | _
    · simp only [hok, Bool.false_eq_true, if_false]
      constructor
      · intro h0 j hj
        rcases j with _ | j
        · simpa using hok
        · have := (hrest.mp h0) j (by simpa using hj)
          simpa [Nat.add_assoc, Nat.add_comm 1 j] using this
      · intro hall
        exact hrest.mpr fun j hj => by
          have := hall (j + 1) (by simpa using hj)
          simpa [Nat.add_assoc, Nat.add_comm 1 j] using this
    · simp only [hok, if_true]
      constructor
      · intro h0
        exfalso
        have : b.length = 0 := by omega
        exact hb (List.length_eq_zero.mp this)
      · intro hall
        have := hall 0 (by simp)
        simp [hok] at this


/-- The error count is zero exactly when every chunk succeeded (chunks
being nonempty). -/
theorem runBatches_error_eq_zero (batchOk : Nat → Bool) :
    ∀ i cs, (∀ b ∈ cs, b ≠ []) →
      ((runBatches batchOk i cs).2.1 = 0 ↔ ∀ j < cs.length, batchOk (i + j) = true) := by
  intro i cs
  induction cs generalizing i with
  | nil => intro _; simp [runBatches]
  | cons b rest ih =>
    intro hmem
    have hb : b ≠ [] := hmem b (List.mem_cons_self b rest)
    have hrest := ih (i + 1) (fun c hc => hmem c (List.mem_cons_of_mem b hc))
    unfold runBatches
    rcases hok : batchOk i with _ | _
    · simp only [hok, Bool.false_eq_true, if_false]
      constructor
      · intro h0
        exfalso
        have : b.length = 0 := by omega
        exact hb (List.length_eq_zero.mp this)
      · intro hall
        have := hall 0 (by simp)
        simp [hok] at this
    · simp only [hok, if_true]
      constructor
      · intro h0 j hj
        rcases j with _ | j
        · simpa using hok
        · have := (hrest.mp h0) j (by simpa using hj)
          simpa [Nat.add_assoc, Nat.add_comm 1 j] using this
      · intro hall
        exact hrest.mpr fun j hj => by
          have := hall (j + 1) (by simpa using hj)
          simpa [Nat.add_assoc, Nat.add_comm 1 j] using this

/-- Every chunk emitted by the chunking loops is nonempty when the chunk
size is positive. -/
theorem chunksOfAux_mem_ne_nil {α : Type} (n : Nat) (hn : 0 < n) :
    ∀ fuel (l : List α), ∀ b ∈ chunksOfAux n fuel l, b ≠ [] := by
  intro fuel
  induction fuel with
  | zero => intro l b hb; simp [chunksOfAux] at hb
  | succ fuel ih =>
    intro l b hb
    cases l with
    | nil => simp [chunksOfAux] at hb
    | cons x xs =>
      simp only [chunksOfAux, List.mem_cons] at hb
      rcases hb with rfl | hb
      · cases n with
        | zero => omega
        | succ m => simp
      · exact ih _ b hb

/-- Nonempty-chunk fact specialised to `chunksOf`. -/
theorem chunksOf_mem_ne_nil {α : Type} (n : Nat) (hn : 0 < n) (l : List α) :
    ∀ b ∈ chunksOf n l, b ≠ [] := chunksOfAux_mem_ne_nil n hn l.length l

/-- A nonempty list yields at least one chunk. -/
theorem chunksOf_ne_nil {α : Type} (n : Nat) (l : List α) (hl : l ≠ []) :
    chunksOf n l ≠ [] := by
  cases l with
  | nil => exact absurd rfl hl
  | cons x xs => simp [chunksOf, chunksOfAux]

/-- Final policy of the chunk loop: all chunks are attempted and an error
comes back exactly when every chunk failed. -/
theorem runInitChunks_spec (events : List Event) (batchOk : Nat → Bool)
    (hne : events ≠ []) :
    (runInitChunks events batchOk).2 = chunksOf 100 events ∧
    ((runInitChunks events batchOk).1.isSome ↔
      ∀ j < (chunksOf 100 events).length, batchOk j = false) := by
  have hmem := chunksOf_mem_ne_nil 100 (by norm_num) events
  have hcs : chunksOf 100 events ≠ [] := chunksOf_ne_nil 100 events hne
  have hlen : 0 < (chunksOf 100 events).length := List.length_pos.mpr hcs
  have hsucc := runBatches_success_eq_zero batchOk 0 (chunksOf 100 events) hmem
  have herr := runBatches_error_eq_zero batchOk 0 (chunksOf 100 events) hmem
  have hatt := runBatches_attempted batchOk 0 (chunksOf 100 events)
  simp only [Nat.zero_add] at hsucc herr
  unfold runInitChunks
  dsimp only
  constructor
  · split_ifs <;> exact hatt
  · split_ifs with h1 h2
    · simp only [Option.isSome_some, true_iff]
      exact hsucc.mp h2
    · simp only [Option.isSome_none, Bool.false_eq_true, false_iff]
      intro hall
      exact h2 (hsucc.mpr hall)
    · simp only [Option.isSome_none, Bool.false_eq_true, false_iff]
      intro hall
      have herr0 : (runBatches batchOk 0 (chunksOf 100 events)).2.1 = 0 := by omega
      have h0 := herr.mp herr0 0 hlen
      have h0' := hall 0 hlen
      rw [h0] at h0'
      cases h0'

/-- C4: for every nonempty record set whose index probe reports no
existing documents (or fails), bootstrap attempts every chunk — failures
included — and returns an error exactly when no chunk succeeded. -/
theorem initData_processesAllChunks (events : List Event)
    (searchTotal : Except Err Nat) (batchOk : Nat → Bool)
    (hne : events ≠ [])
    (hproceed : ∀ t, searchTotal = .ok t → t = 0) :
    (initOpenSearchData (.ok events) searchTotal batchOk).2 = chunksOf 100 events ∧
    ((initOpenSearchData (.ok events) searchTotal batchOk).1.isSome ↔
      ∀ j < (chunksOf 100 events).length, batchOk j = false) := by
  have hlen : ¬ events.length = 0 := by simpa [List.length_eq_zero] using hne
  have hrun := runInitChunks_spec events batchOk hne
  simp only [initOpenSearchData]
  rw [if_neg hlen]
  cases searchTotal with
  | error e => exact hrun
  | ok t =>
    have ht : t = 0 := hproceed t rfl
    subst ht
    dsimp only
    rw [if_neg (lt_irrefl 0)]
    exact hrun

/-- C4 witness: one event, empty index, every chunk failing — the chunk
is attempted and an aggregate error is returned. -/
theorem initData_processesAllChunks_witness :
    (initOpenSearchData (Except.ok [⟨1, "n", "", 1, "d", "t", "l", 0, "", "s", 1, none⟩])
        (Except.ok 0) (fun _ => false)).1.isSome ∧
    (initOpenSearchData (Except.ok [⟨1, "n", "", 1, "d", "t", "l", 0, "", "s", 1, none⟩])
        (Except.ok 0) (fun _ => false)).2 =
      chunksOf 100 [⟨1, "n", "", 1, "d", "t", "l", 0, "", "s", 1, none⟩] :=
  ⟨(initData_processesAllChunks _ _ _ (by simp)
      (fun t ht => by injection ht with h; exact h.symm)).2.mpr (fun j hj => rfl),
   (initData_processesAllChunks _ _ _ (by simp)
      (fun t ht => by injection ht with h; exact h.symm)).1⟩

/-- C5: bootstrap is a no-op — success and no chunk submitted to the
index — when the record store is empty or the probe reports a positive
existing total. -/
theorem initData_skip_noWrites (events : List Event) (searchTotal : Except Err Nat)
    (batchOk : Nat → Bool)
    (h : events = [] ∨ ∃ t, searchTotal = .ok t ∧ 0 < t) :
    initOpenSearchData (.ok events) searchTotal batchOk = (none, []) := by
  rcases h with rfl | ⟨t, rfl, ht⟩
  · rfl
  · simp only [initOpenSearchData]
    by_cases hl : events.length = 0
    · rw [if_pos hl]
    · rw [if_neg hl, if_pos ht]

/-- C5 witness: a populated index (total 5) short-circuits bootstrap. -/
theorem initData_skip_noWrites_witness :
    initOpenSearchData (Except.ok [⟨1, "n", "", 1, "d", "t", "l", 0, "", "s", 1, none⟩])
      (Except.ok 5) (fun _ => true) = (none, []) :=
  initData_skip_noWrites _ _ _ (Or.inr ⟨5, rfl, by norm_num⟩)

/-! ## Consistency manager (PostgreSQL vs. the search index) -/

/-- Embeds `EventMismatch`. -/
structure EventMismatch where
  eventID : Int
  field : String
  dbValue : String
  esValue : String
deriving DecidableEq

/-- Embeds `CheckResult`.  The wall-clock `CheckDuration` is not
modelled; `timestamp` is the start instant in nanoseconds. -/
structure CheckResult where
  isConsistent : Bool
  totalEventsDB : Nat
  totalEventsES : Nat
  missingInES : List Int
  missingInDB : List Int
  mismatches : List EventMismatch
  timestamp : Nat
deriving DecidableEq

/-- Stands in for `fmt.Sprintf("%.2f", price)`; the rendering itself is
irrelevant to the checked properties. -/
def priceString (q : ℚ) : String := toString q

/-- Embeds `compareEvent`: one `EventMismatch` per differing field among
the eight compared fields, in source order. -/
def compareEvent (e : Event) (d : EventDocument) : List EventMismatch :=
  (if e.name ≠ d.name then [⟨e.id, "name", e.name, d.name⟩] else []) ++
  (if e.description ≠ d.description then
    [⟨e.id, "description", e.description, d.description⟩] else []) ++
  (if e.categoryID ≠ d.categoryID then
    [⟨e.id, "category_id", toString e.categoryID, toString d.categoryID⟩] else []) ++
  (if e.date ≠ d.date then [⟨e.id, "date", e.date, d.date⟩] else []) ++
  (if e.time ≠ d.time then [⟨e.id, "time", e.time, d.time⟩] else []) ++
  (if e.location ≠ d.location then
    [⟨e.id, "location", e.location, d.location⟩] else []) ++
  (if e.price ≠ d.price then
    [⟨e.id, "price", priceString e.price, priceString d.price⟩] else []) ++
  (if e.source ≠ d.source then [⟨e.id, "source", e.source, d.source⟩] else [])

/-- Embeds the body of `CheckConsistency` once both snapshots are in
hand: the two membership passes over the id-keyed maps and the
field-comparison pass.  Duplicate-free lists stand for the Go maps (ids
are primary keys resp. document ids), and map iteration is modelled as
iteration in list order; the properties proved about the result are
order-insensitive. -/
def checkCore (db : List Event) (es : List EventDocument) (now : Nat) : CheckResult :=
  let r0 : CheckResult :=
    { isConsistent := true
      totalEventsDB := db.length
      totalEventsES := es.length
      missingInES := []
      missingInDB := []
      mismatches := []
      timestamp := now }
  let r1 := db.foldl (fun r e =>
    if es.any (fun d => d.id = e.id) then r
    else { r with missingInES := r.missingInES ++ [e.id], isConsistent := false }) r0
  let r2 := es.foldl (fun r d =>
    if db.any (fun e => e.id = d.id) then r
    else { r with missingInDB := r.missingInDB ++ [d.id], isConsistent := false }) r1
  let r3 := db.foldl (fun r e =>
    match es.find? (fun d => d.id = e.id) with
    | some d =>
      let ms := compareEvent e d
      if 0 < ms.length then
        { r with mismatches := r.mismatches ++ ms, isConsistent := false }
      else r
    | none => r) r2
  r3

/-- Embeds the cache-relevant state of the consistency `Manager`. -/
structure Manager where
  lastCheck : Option CheckResult
  lastCheckTime : Nat
  checkCacheTTL : Nat
deriving DecidableEq

/-- Embeds the manager constructor `New`: TTL one minute (6·10^10 ns),
nothing cached yet. -/
def newManager : Manager :=
  { lastCheck := none, lastCheckTime := 0, checkCacheTTL := 60000000000 }

/-- Embeds `getCachedResult` read at instant `now`: the cached result
unless absent or stale (`time.Since(m.lastCheckTime) > m.checkCacheTTL`). -/
def Manager.getCachedResult (m : Manager) (now : Nat) : Option CheckResult :=
  match m.lastCheck with
  | none => none
  | some r => if m.checkCacheTTL < now - m.lastCheckTime then none else some r

/-- Embeds `CheckConsistency` around `checkCore`: serve a fresh cached
result unchanged, otherwise recompute from the two snapshots and
overwrite the cache (`setCachedResult` also stamps `lastCheckTime`).
The final component records whether the stores were scanned. -/
def Manager.checkConsistency (m : Manager) (now : Nat) (db : List Event)
    (es : List EventDocument) : CheckResult × Manager × Bool :=
  match m.getCachedResult now with
  | some r => (r, m, false)
  | none =>
    let r := checkCore db es now
    (r, { m with lastCheck := some r, lastCheckTime := now }, true)

/-- Outcomes of the repair sub-operations, as oracles:
`getEventByID` is the record-store fetch (`none` = error), the three
`Bool`s are the success of `IndexEvent`, `DeleteEvent` and
`UpdateEvent`. -/
structure RepairEnv where
  getEventByID : Int → Option Event
  indexOk : Event → Bool
  deleteOk : Int → Bool
  updateOk : Event → Bool

/-- Embeds the missing-in-index repair loop of `RepairInconsistencies`:
fetch each id from the record store and index it; either step failing
collects one error and the loop continues.  Returns the collected error
count and the attempted ids. -/
def repairMissingInES (env : RepairEnv) : List Int → Nat × List Int
  | [] => (0, [])
  | id :: rest =>
    let r := repairMissingInES env rest
    match env.getEventByID id with
    | none => (r.1 + 1, id :: r.2)
    | some e => if env.indexOk e then (r.1, id :: r.2) else (r.1 + 1, id :: r.2)

/-- Embeds the orphan-deletion loop: delete each id from the index,
collecting an error on failure. -/
def repairMissingInDB (env : RepairEnv) : List Int → Nat × List Int
  | [] => (0, [])
  | id :: rest =>
    let r := repairMissingInDB env rest
    if env.deleteOk id then (r.1, id :: r.2) else (r.1 + 1, id :: r.2)

/-- Embeds the mismatch repair loop with its `processedEvents`
deduplication (`seen`): each distinct mismatched id is fetched and
re-indexed once; failures collect an error and the loop continues. -/
def repairMismatches (env : RepairEnv) : List Int → List EventMismatch → Nat × List Int
  | _, [] => (0, [])
  | seen, mm :: rest =>
    if mm.eventID ∈ seen then repairMismatches env seen rest
    else
      let r := repairMismatches env (mm.eventID :: seen) rest
      match env.getEventByID mm.eventID with
      | none => (r.1 + 1, mm.eventID :: r.2)
      | some e =>
        if env.updateOk e then (r.1, mm.eventID :: r.2) else (r.1 + 1, mm.eventID :: r.2)

/-- Embeds `RepairInconsistencies`: nothing to do on a consistent result;
otherwise run the three loops, and return a single aggregate error
(`"repair completed with %d errors"`) exactly when some sub-operation
failed.  The second component lists the attempted entity ids. -/
def repairInconsistencies (env : RepairEnv) (result : CheckResult) :
    Option Err × List Int :=
  if result.isConsistent then (none, [])
  else
    let p1 := repairMissingInES env result.missingInES
    let p2 := repairMissingInDB env result.missingInDB
    let p3 := repairMismatches env [] result.mismatches
    let total := p1.1 + p2.1 + p3.1
    if 0 < total then
      (some ("repair completed with " ++ toString total ++ " errors"), p1.2 ++ p2.2 ++ p3.2)
    else (none, p1.2 ++ p2.2 ++ p3.2)

/-- First occurrences of a list of ids not already in `seen` (the order
in which the mismatch loop processes distinct ids). -/
def dedupSeen : List Int → List Int → List Int
  | _, [] => []
  | seen, x :: xs => if x ∈ seen then dedupSeen seen xs else x :: dedupSeen (x :: seen) xs

/-- Whether the repair of an id missing from the index fails (fetch or
index step). -/
def esRepairFails (env : RepairEnv) (id : Int) : Bool :=
  match env.getEventByID id with
  | none => true
  | some e => !env.indexOk e

/-- Whether the deletion of an orphaned id fails. -/
def dbRepairFails (env : RepairEnv) (id : Int) : Bool := !env.deleteOk id

/-- Whether the re-index of a mismatched id fails (fetch or update
step). -/
def mmRepairFails (env : RepairEnv) (id : Int) : Bool :=
  match env.getEventByID id with
  | none => true
  | some e => !env.updateOk e

/-- Total number of failing sub-operations a repair of `result` incurs. -/
def repairTotalFailures (env : RepairEnv) (result : CheckResult) : Nat :=
  result.missingInES.countP (esRepairFails env) +
  result.missingInDB.countP (dbRepairFails env) +
  (dedupSeen [] (result.mismatches.map EventMismatch.eventID)).countP (mmRepairFails env)

/-- C7: with a cached result present, a `CheckConsistency` call within
the TTL window returns the cached value unchanged (same timestamp, state
untouched) without scanning the stores; a call after TTL expiry rescans,
returns the fresh result and replaces the cached value. -/
theorem checkConsistency_cache_spec (m : Manager) (now : Nat)
    (db : List Event) (es : List EventDocument) (r0 : CheckResult)
    (hc : m.lastCheck = some r0) :
    (now - m.lastCheckTime ≤ m.checkCacheTTL →
      m.checkConsistency now db es = (r0, m, false)) ∧
    (m.checkCacheTTL < now - m.lastCheckTime →
      m.checkConsistency now db es =
        (checkCore db es now,
         { m with lastCheck := some (checkCore db es now), lastCheckTime := now },
         true)) := by
  unfold Manager.checkConsistency Manager.getCachedResult
  rw [hc]
  dsimp only
  constructor
  · intro hfresh
    rw [if_neg (not_lt.mpr hfresh)]
  · intro hstale
    rw [if_pos hstale]

/-- C7 witness: cached at instant 100 with TTL 50 — a call at 120 serves
the cache, a call at 200 recomputes and replaces it. -/
theorem checkConsistency_cache_spec_witness :
    (Manager.checkConsistency ⟨some (checkCore [] [] 7), 100, 50⟩ 120 [] [] =
      (checkCore [] [] 7, ⟨some (checkCore [] [] 7), 100, 50⟩, false)) ∧
    (Manager.checkConsistency ⟨some (checkCore [] [] 7), 100, 50⟩ 200 [] [] =
      (checkCore [] [] 200, ⟨some (checkCore [] [] 200), 200, 50⟩, true)) :=
  ⟨(checkConsistency_cache_spec ⟨some (checkCore [] [] 7), 100, 50⟩ 120 [] [] _ rfl).1
      (by norm_num),
   (checkConsistency_cache_spec ⟨some (checkCore [] [] 7), 100, 50⟩ 200 [] [] _ rfl).2
      (by norm_num)⟩

/-- The missing-in-index loop attempts every id and collects one error
per failing repair. -/
theorem repairMissingInES_spec (env : RepairEnv) :
    ∀ l, repairMissingInES env l = (l.countP (esRepairFails env), l) := by
  intro l
  induction l with
  | nil => rfl
  | cons id rest ih =>
    unfold repairMissingInES
    rw [ih]
    cases hg : env.getEventByID id with
    | none => simp [List.countP_cons, esRepairFails, hg]
    | some e =>
      cases hok : env.indexOk e <;>
        simp [List.countP_cons, esRepairFails, hg, hok]

/-- The orphan-deletion loop attempts every id and collects one error per
failing deletion. -/
theorem repairMissingInDB_spec (env : RepairEnv) :
    ∀ l, repairMissingInDB env l = (l.countP (dbRepairFails env), l) := by
  intro l
  induction l with
  | nil => rfl
  | cons id rest ih =>
    unfold repairMissingInDB
    rw [ih]
    cases hok : env.deleteOk id <;>
      simp [List.countP_cons, dbRepairFails, hok]

/-- The mismatch loop attempts each distinct id once (first occurrences)
and collects one error per failing re-index. -/
theorem repairMismatches_spec (env : RepairEnv) :
    ∀ (ms : List EventMismatch) (seen : List Int),
      repairMismatches env seen ms =
        ((dedupSeen seen (ms.map EventMismatch.eventID)).countP (mmRepairFails env),
         dedupSeen seen (ms.map EventMismatch.eventID)) := by
  intro ms
  induction ms with
  | nil => intro seen; rfl
  | cons mm rest ih =>
    intro seen
    unfold repairMismatches
    simp only [List.map_cons, dedupSeen]
    by_cases hseen : mm.eventID ∈ seen
    · rw [if_pos hseen, if_pos hseen, ih]
    · rw [if_neg hseen, if_neg hseen, ih]
      cases hg : env.getEventByID mm.eventID with
      | none => simp [List.countP_cons, mmRepairFails, hg]
      | some e =>
        cases hok : env.updateOk e <;>
          simp [List.countP_cons, mmRepairFails, hg, hok]

/-- C8: on a well-formed check result (`IsConsistent` reflects the three
lists, as `CheckConsistency` guarantees), repair attempts an action for
every listed entity — each id missing from the index, each orphaned id,
each distinct mismatched id — regardless of earlier per-item failures,
and returns an error iff at least one sub-operation failed, that error
being the single aggregate naming the failure count. -/
theorem repairInconsistencies_spec (env : RepairEnv) (result : CheckResult)
    (hwf : result.isConsistent = true →
      result.missingInES = [] ∧ result.missingInDB = [] ∧ result.mismatches = []) :
    (repairInconsistencies env result).2 =
      result.missingInES ++ result.missingInDB ++
        dedupSeen [] (result.mismatches.map EventMismatch.eventID) ∧
    ((repairInconsistencies env result).1.isSome ↔
      0 < repairTotalFailures env result) ∧
    (0 < repairTotalFailures env result →
      (repairInconsistencies env result).1 =
        some ("repair completed with " ++ toString (repairTotalFailures env result) ++
          " errors")) := by
  unfold repairInconsistencies
  rcases hcons : result.isConsistent with _ | _
  · simp only [Bool.false_eq_true, if_false]
    rw [repairMissingInES_spec, repairMissingInDB_spec, repairMismatches_spec]
    dsimp only
    have htot : result.missingInES.countP (esRepairFails env) +
        result.missingInDB.countP (dbRepairFails env) +
        (dedupSeen [] (result.mismatches.map EventMismatch.eventID)).countP
          (mmRepairFails env) = repairTotalFailures env result := rfl
    rw [htot]
    split_ifs with h0
    · exact ⟨rfl, by simp [h0], fun _ => rfl⟩
    · refine ⟨rfl, ?_, fun hpos => absurd hpos h0⟩
      simp only [Option.isSome_none, Bool.false_eq_true, false_iff]
      exact h0
  · obtain ⟨h1, h2, h3⟩ := hwf hcons
    simp only [if_true]
    rw [h1, h2, h3]
    refine ⟨rfl, ?_, ?_⟩
    · simp [repairTotalFailures, h1, h2, h3, dedupSeen]
    · intro hpos
      rw [repairTotalFailures, h1, h2, h3] at hpos
      simp [dedupSeen] at hpos

/-- C8 witness: one id per category — a successful index, a failing
delete and a failing fetch — gives all three attempts and the aggregate
error counting two failures. -/
theorem repairInconsistencies_spec_witness :
    (repairInconsistencies
        ⟨fun id => if id = 1 then some ⟨1, "n", "", 1, "d", "t", "l", 0, "", "s", 1, none⟩
          else none, fun _ => true, fun _ => false, fun _ => true⟩
        ⟨false, 0, 0, [1], [2], [⟨3, "name", "a", "b"⟩], 0⟩).2 = [1, 2, 3] ∧
    (repairInconsistencies
        ⟨fun id => if id = 1 then some ⟨1, "n", "", 1, "d", "t", "l", 0, "", "s", 1, none⟩
          else none, fun _ => true, fun _ => false, fun _ => true⟩
        ⟨false, 0, 0, [1], [2], [⟨3, "name", "a", "b"⟩], 0⟩).1.isSome := by
  have h := repairInconsistencies_spec
    ⟨fun id => if id = 1 then some ⟨1, "n", "", 1, "d", "t", "l", 0, "", "s", 1, none⟩
      else none, fun _ => true, fun _ => false, fun _ => true⟩
    ⟨false, 0, 0, [1], [2], [⟨3, "name", "a", "b"⟩], 0⟩
    (by intro hh; cases hh)
  refine ⟨by rw [h.1]; decide, h.2.1.mpr (by decide)⟩

/-- Closed form of the first `CheckConsistency` pass (ids in the record
store but not in the index). -/
theorem checkCore_phase1 (es : List EventDocument) :
    ∀ (db : List Event) (r : CheckResult),
      db.foldl (fun r e =>
        if es.any (fun d => d.id = e.id) then r
        else { r with missingInES := r.missingInES ++ [e.id], isConsistent := false }) r =
      { r with
        missingInES := r.missingInES ++
          (db.filter (fun e => !es.any (fun d => d.id = e.id))).map Event.id,
        isConsistent := r.isConsistent &&
          db.all (fun e => es.any (fun d => d.id = e.id)) } := by
  intro db
  induction db with
  | nil => intro r; simp
  | cons e db ih =>
    intro r
    rw [List.foldl_cons]
    cases hany : es.any (fun d => d.id = e.id) with
    | true =>
      rw [if_pos rfl, ih]
      simp [List.filter_cons, List.all_cons, hany]
    | false =>
      rw [if_neg (by simp), ih]
      simp [List.filter_cons, List.all_cons, hany, List.append_assoc]

/-- Closed form of the second pass (ids in the index but not in the
record store). -/
theorem checkCore_phase2 (db : List Event) :
    ∀ (es : List EventDocument) (r : CheckResult),
      es.foldl (fun r d =>
        if db.any (fun e => e.id = d.id) then r
        else { r with missingInDB := r.missingInDB ++ [d.id], isConsistent := false }) r =
      { r with
        missingInDB := r.missingInDB ++
          (es.filter (fun d => !db.any (fun e => e.id = d.id))).map EventDocument.id,
        isConsistent := r.isConsistent &&
          es.all (fun d => db.any (fun e => e.id = d.id)) } := by
  intro es
  induction es with
  | nil => intro r; simp
  | cons d es ih =>
    intro r
    rw [List.foldl_cons]
    cases hany : db.any (fun e => e.id = d.id) with
    | true =>
      rw [if_pos rfl, ih]
      simp [List.filter_cons, List.all_cons, hany]
    | false =>
      rw [if_neg (by simp), ih]
      simp [List.filter_cons, List.all_cons, hany, List.append_assoc]

/-- Closed form of the third pass (field comparison for ids present in
both stores). -/
theorem checkCore_phase3 (es : List EventDocument) :
    ∀ (db : List Event) (r : CheckResult),
      db.foldl (fun r e =>
        match es.find? (fun d => d.id = e.id) with
        | some d =>
          let ms := compareEvent e d
          if 0 < ms.length then
            { r with mismatches := r.mismatches ++ ms, isConsistent := false }
          else r
        | none => r) r =
      { r with
        mismatches := r.mismatches ++
          db.flatMap (fun e =>
            match es.find? (fun d => d.id = e.id) with
            | some d => compareEvent e d
            | none => []),
        isConsistent := r.isConsistent &&
          db.all (fun e =>
            match es.find? (fun d => d.id = e.id) with
            | some d => (compareEvent e d).isEmpty
            | none => true) } := by
  intro db
  induction db with
  | nil => intro r; simp
  | cons e db ih =>
    intro r
    rw [List.foldl_cons]
    dsimp only
    cases hfind : es.find? (fun d => d.id = e.id) with
    | none =>
      rw [ih]
      simp [List.flatMap_cons, List.all_cons, hfind]
    | some d =>
      dsimp only
      cases hms : compareEvent e d with
      | nil =>
        rw [if_neg (by simp), ih]
        simp [List.flatMap_cons, List.all_cons, hfind, hms]
      | cons m ms =>
        rw [if_pos (by simp), ih]
        simp [List.flatMap_cons, List.all_cons, hfind, hms, List.append_assoc]

/-- Closed form of the whole `CheckConsistency` computation. -/
theorem checkCore_closedForm (db : List Event) (es : List EventDocument) (now : Nat) :
    checkCore db es now =
      { isConsistent := db.all (fun e => es.any (fun d => d.id = e.id)) &&
          es.all (fun d => db.any (fun e => e.id = d.id)) &&
          db.all (fun e =>
            match es.find? (fun d => d.id = e.id) with
            | some d => (compareEvent e d).isEmpty
            | none => true)
        totalEventsDB := db.length
        totalEventsES := es.length
        missingInES := (db.filter (fun e => !es.any (fun d => d.id = e.id))).map Event.id
        missingInDB :=
          (es.filter (fun d => !db.any (fun e => e.id = d.id))).map EventDocument.id
        mismatches := db.flatMap (fun e =>
          match es.find? (fun d => d.id = e.id) with
          | some d => compareEvent e d
          | none => [])
        timestamp := now } := by
  unfold checkCore
  dsimp only
  rw [checkCore_phase1, checkCore_phase2, checkCore_phase3]
  simp

/-- The field names the spec says are compared: one entry per differing
field among the eight (name, description, category, date, time, location,
price, source). -/
def diffFields (e : Event) (d : EventDocument) : List String :=
  (if e.name = d.name then [] else ["name"]) ++
  (if e.description = d.description then [] else ["description"]) ++
  (if e.categoryID = d.categoryID then [] else ["category_id"]) ++
  (if e.date = d.date then [] else ["date"]) ++
  (if e.time = d.time then [] else ["time"]) ++
  (if e.location = d.location then [] else ["location"]) ++
  (if e.price = d.price then [] else ["price"]) ++
  (if e.source = d.source then [] else ["source"])

/-- C6 helper: `compareEvent` records exactly the differing fields, in
source order. -/
theorem compareEvent_fields (e : Event) (d : EventDocument) :
    (compareEvent e d).map EventMismatch.field = diffFields e d := by
  unfold compareEvent diffFields
  simp only [List.map_append, ite_not, apply_ite (List.map EventMismatch.field),
    List.map_cons, List.map_nil]

/-- With duplicate-free document ids, `find?` by id finds exactly the
member with that id. -/
theorem find?_id_of_mem (x : Int) (d : EventDocument) :
    ∀ (es : List EventDocument), (es.map EventDocument.id).Nodup → d ∈ es →
      d.id = x → es.find? (fun dd => dd.id = x) = some d := by
  intro es
  induction es with
  | nil => intro _ hm _; cases hm
  | cons d0 tl ih =>
    intro hnd hm hid
    by_cases h0 : d0.id = x
    · rw [List.find?_cons_of_pos tl (by simpa using h0)]
      rcases List.mem_cons.mp hm with rfl | hmem
      · rfl
      · exfalso
        rw [List.map_cons, List.nodup_cons] at hnd
        exact hnd.1 (List.mem_map.mpr ⟨d, hmem, by rw [hid, h0]⟩)
    · rw [List.find?_cons_of_neg tl (by simpa using h0)]
      rcases List.mem_cons.mp hm with rfl | hmem
      · exact absurd hid h0
      · rw [List.map_cons, List.nodup_cons] at hnd
        exact ih hnd.2 hmem hid

/-- C6: `CheckConsistency` computes `MissingInES` as exactly the ids in
the record store absent from the index, `MissingInDB` as exactly the ids
in the index absent from the record store, the mismatches as one
`EventMismatch` per differing field (among the eight compared fields) for
each id present in both, and `IsConsistent` is true iff all three lists
are empty.  The hypotheses say the id keys are duplicate-free, as they
are in the Go maps the code builds. -/
theorem checkConsistency_sets_spec (db : List Event) (es : List EventDocument)
    (now : Nat) (hdb : (db.map Event.id).Nodup)
    (hes : (es.map EventDocument.id).Nodup) :
    (∀ i : Int, i ∈ (checkCore db es now).missingInES ↔
      ((∃ e ∈ db, e.id = i) ∧ ¬ ∃ d ∈ es, d.id = i)) ∧
    (∀ i : Int, i ∈ (checkCore db es now).missingInDB ↔
      ((∃ d ∈ es, d.id = i) ∧ ¬ ∃ e ∈ db, e.id = i)) ∧
    (∀ m : EventMismatch, m ∈ (checkCore db es now).mismatches ↔
      ∃ e ∈ db, ∃ d ∈ es, d.id = e.id ∧ m ∈ compareEvent e d) ∧
    (∀ (e : Event) (d : EventDocument),
      (compareEvent e d).map EventMismatch.field = diffFields e d) ∧
    ((checkCore db es now).isConsistent = true ↔
      (checkCore db es now).missingInES = [] ∧
      (checkCore db es now).missingInDB = [] ∧
      (checkCore db es now).mismatches = []) := by
  rw [checkCore_closedForm]
  dsimp only
  refine ⟨?_, ?_, ?_, compareEvent_fields, ?_⟩
  · intro i
    simp only [List.mem_map, List.mem_filter]
    constructor
    · rintro ⟨e, ⟨he, hpred⟩, rfl⟩
      refine ⟨⟨e, he, rfl⟩, ?_⟩
      rintro ⟨d, hd, hdid⟩
      have hany : es.any (fun d => d.id = e.id) = true :=
        List.any_eq_true.mpr ⟨d, hd, by simpa using hdid⟩
      rw [hany] at hpred
      simp at hpred
    · rintro ⟨⟨e, he, rfl⟩, hnone⟩
      refine ⟨e, ⟨he, ?_⟩, rfl⟩
      have hany : es.any (fun d => d.id = e.id) = false := by
        apply List.any_eq_false.mpr
        intro d hd hdec
        exact hnone ⟨d, hd, by simpa using hdec⟩
      rw [hany]
      rfl
  · intro i
    simp only [List.mem_map, List.mem_filter]
    constructor
    · rintro ⟨d, ⟨hd, hpred⟩, rfl⟩
      refine ⟨⟨d, hd, rfl⟩, ?_⟩
      rintro ⟨e, he, heid⟩
      have hany : db.any (fun e => e.id = d.id) = true :=
        List.any_eq_true.mpr ⟨e, he, by simpa using heid⟩
      rw [hany] at hpred
      simp at hpred
    · rintro ⟨⟨d, hd, rfl⟩, hnone⟩
      refine ⟨d, ⟨hd, ?_⟩, rfl⟩
      have hany : db.any (fun e => e.id = d.id) = false := by
        apply List.any_eq_false.mpr
        intro e he hdec
        exact hnone ⟨e, he, by simpa using hdec⟩
      rw [hany]
      rfl
  · intro m
    simp only [List.mem_flatMap]
    constructor
    · rintro ⟨e, he, hm⟩
      cases hfind : es.find? (fun dd => dd.id = e.id) with
      | none =>
        rw [hfind] at hm
        cases hm
      | some d =>
        rw [hfind] at hm
        have hdmem := List.mem_of_find?_eq_some hfind
        have hdid : d.id = e.id := by simpa using List.find?_some hfind
        exact ⟨e, he, d, hdmem, hdid, hm⟩
    · rintro ⟨e, he, d, hd, hdid, hm⟩
      refine ⟨e, he, ?_⟩
      rw [find?_id_of_mem e.id d es hes hd hdid]
      exact hm
  · have e1 : (db.all (fun e => es.any (fun d => d.id = e.id)) = true) ↔
        ((db.filter (fun e => !es.any (fun d => d.id = e.id))).map Event.id = []) := by
      rw [List.map_eq_nil_iff, List.filter_eq_nil_iff, List.all_eq_true]
      simp only [Bool.not_eq_true']
      exact forall₂_congr fun e he => Bool.ne_false_iff.symm
    have e2 : (es.all (fun d => db.any (fun e => e.id = d.id)) = true) ↔
        ((es.filter (fun d => !db.any (fun e => e.id = d.id))).map EventDocument.id
          = []) := by
      rw [List.map_eq_nil_iff, List.filter_eq_nil_iff, List.all_eq_true]
      simp only [Bool.not_eq_true']
      exact forall₂_congr fun d hd => Bool.ne_false_iff.symm
    have e3 : (db.all (fun e =>
        match es.find? (fun dd => dd.id = e.id) with
        | some d => (compareEvent e d).isEmpty
        | none => true) = true) ↔
        (db.flatMap (fun e =>
          match es.find? (fun dd => dd.id = e.id) with
          | some d => compareEvent e d
          | none => []) = []) := by
      rw [List.flatMap_eq_nil_iff, List.all_eq_true]
      refine forall₂_congr fun e he => ?_
      cases hfind : es.find? (fun dd => dd.id = e.id) with
      | none => simp
      | some d => simp [List.isEmpty_iff]
    rw [Bool.and_eq_true, Bool.and_eq_true, e1, e2, e3]
    tauto

/-- C6 witness: record store `{1, 2}`, index `{2, 4}` with a price
mismatch on id 2 — id 1 is missing in the index, id 4 is orphaned, the
single mismatch is on field "price", and the result is inconsistent. -/
theorem checkConsistency_sets_spec_witness :
    ((1 : Int) ∈ (checkCore
        [⟨1, "a", "", 1, "d", "t", "l", 5, "", "s", 1, none⟩,
         ⟨2, "b", "", 1, "d", "t", "l", 10, "", "s", 1, none⟩]
        [⟨2, "b", "", 1, "", "d", "t", "l", 12, "", "s", 1, none⟩,
         ⟨4, "c", "", 1, "", "d", "t", "l", 9, "", "s", 1, none⟩] 0).missingInES) ∧
    ((4 : Int) ∈ (checkCore
        [⟨1, "a", "", 1, "d", "t", "l", 5, "", "s", 1, none⟩,
         ⟨2, "b", "", 1, "d", "t", "l", 10, "", "s", 1, none⟩]
        [⟨2, "b", "", 1, "", "d", "t", "l", 12, "", "s", 1, none⟩,
         ⟨4, "c", "", 1, "", "d", "t", "l", 9, "", "s", 1, none⟩] 0).missingInDB) ∧
    ¬ ((checkCore
        [⟨1, "a", "", 1, "d", "t", "l", 5, "", "s", 1, none⟩,
         ⟨2, "b", "", 1, "d", "t", "l", 10, "", "s", 1, none⟩]
        [⟨2, "b", "", 1, "", "d", "t", "l", 12, "", "s", 1, none⟩,
         ⟨4, "c", "", 1, "", "d", "t", "l", 9, "", "s", 1, none⟩] 0).isConsistent
      = true) := by
  have h := checkConsistency_sets_spec
    [⟨1, "a", "", 1, "d", "t", "l", 5, "", "s", 1, none⟩,
     ⟨2, "b", "", 1, "d", "t", "l", 10, "", "s", 1, none⟩]
    [⟨2, "b", "", 1, "", "d", "t", "l", 12, "", "s", 1, none⟩,
     ⟨4, "c", "", 1, "", "d", "t", "l", 9, "", "s", 1, none⟩] 0
    (by simp) (by simp)
  refine ⟨?_, ?_, ?_⟩
  · exact (h.1 1).mpr ⟨⟨_, List.mem_cons_self _ _, rfl⟩, by simp⟩
  · exact (h.2.1 4).mpr ⟨⟨_, List.mem_cons_of_mem _ (List.mem_cons_self _ _), rfl⟩,
      by simp⟩
  · intro hcons
    have hempty := (h.2.2.2.2.mp hcons).1
    have h1 := (h.1 1).mpr ⟨⟨_, List.mem_cons_self _ _, rfl⟩, by simp⟩
    rw [hempty] at h1
    cases h1

end EventService
